import Mathlib

/-!
Shallow embedding of the zap file-registry TUI (Go sources: the current
`package main` in src/unnamed/part_002 together with
src/internal/storage/storage.go and the models package in
src/unnamed/part_000).

Modelling conventions:
* Go strings are modelled as lists of characters (`Str`).  Go's byte-wise
  operations (string comparison, the fuzzy-match loop) coincide with the
  character-wise model on ASCII data, and Go's byte-wise lexicographic
  order on UTF-8 strings coincides with code-point order, so `lexLt`
  below is faithful.
* `strings.ToLower` / `strings.EqualFold` are modelled via
  `Char.toLower` (exact on ASCII).
* `time.Time` is modelled as a natural number (`0` = the zero time);
  `LastOpened.After` is `<` on that number.
* Go's `sort.Slice(less)` guarantees only that the result is a
  permutation of the input that is sorted with respect to `less`; it is
  modelled by `List.insertionSort` with the non-strict relation
  `fun a b => less b a = false`, which produces such a permutation (and
  is structurally recursive, hence computable by the kernel).
* Persistence (`storage.Save`) and the editor collaborator are external
  to the view-controller logic; `FileExists` is threaded through as a
  parameter and `Save` is modelled as always succeeding (its failure
  behaviour is outside the claims treated here).
-/

namespace Zap

/-- Go strings, modelled as lists of characters. -/
abbrev Str := List Char

/-- Model of strings.ToLower (exact on ASCII data). -/
def toLowerStr (s : Str) : Str := s.map Char.toLower

/-- Model of strings.EqualFold (case-insensitive equality; exact on ASCII). -/
def equalFold (a b : Str) : Bool := toLowerStr a == toLowerStr b

/-- Byte-wise lexicographic strict order of Go string comparison. -/
def lexLt : Str → Str → Bool
  | [], [] => false
  | [], _ :: _ => true
  | _ :: _, [] => false
  | a :: as, b :: bs => if a < b then true else if b < a then false else lexLt as bs

/-- ASCII model of unicode.IsSpace for strings.TrimSpace. -/
def isSpaceChar (c : Char) : Bool :=
  c == ' ' || c == '\t' || c == '\n' || c == '\r'

/-- Model of strings.TrimSpace. -/
def trimSpace (s : Str) : Str :=
  ((s.dropWhile isSpaceChar).reverse.dropWhile isSpaceChar).reverse

/-- ConfigEntry from src/unnamed/part_000 (models package): Name, Path,
Type, Project, Description, LastOpened, Tags. -/
structure ConfigEntry where
  name : Str
  path : Str
  type : Str
  project : Str
  description : Str
  lastOpened : Nat
  tags : List Str
deriving DecidableEq, Repr

/-- ConfigEntry.Equals from src/unnamed/part_000: structural identity on
Name, Path and Project. -/
def ConfigEntry.Equals (c o : ConfigEntry) : Bool :=
  c.name == o.name && c.path == o.path && c.project == o.project

/-- filepath.Ext: the suffix beginning at the final dot in the final
path element; empty if there is none. -/
def fileExt (p : Str) : Str :=
  let rev := p.reverse
  let pre := rev.takeWhile (fun c => !(c == '.') && !(c == '/'))
  match rev.drop pre.length with
  | '.' :: _ => '.' :: pre.reverse
  | _ => []

/-- DetectFileType from src/unnamed/part_000: file type from the
lower-cased extension. -/
def DetectFileType (path : Str) : Str :=
  let ext := toLowerStr (fileExt path)
  if ext == ('.' :: ['j','s','o','n']) then ['j','s','o','n']
  else if ext == ('.' :: ['y','a','m','l']) || ext == ('.' :: ['y','m','l']) then ['y','a','m','l']
  else if ext == ('.' :: ['t','o','m','l']) then ['t','o','m','l']
  else if ext == ('.' :: ['i','n','i']) || ext == ('.' :: ['c','o','n','f']) then ['i','n','i']
  else if ext == ('.' :: ['x','m','l']) then ['x','m','l']
  else if ext == ('.' :: ['m','d']) || ext == ('.' :: ['m','a','r','k','d','o','w','n']) then ['m','a','r','k','d','o','w','n']
  else if ext == ('.' :: ['t','x','t']) then ['t','x','t']
  else if ext == ('.' :: ['s','h']) then ['s','h','e','l','l']
  else if ext == ('.' :: ['g','o']) then ['g','o']
  else if ext == ('.' :: ['p','y']) then ['p','y','t','h','o','n']
  else if ext == ('.' :: ['j','s']) then ['j','a','v','a','s','c','r','i','p','t']
  else if ext == ('.' :: ['t','s']) then ['t','y','p','e','s','c','r','i','p','t']
  else if ext == ('.' :: ['r','b']) then ['r','u','b','y']
  else ['t','x','t']

/-- expandPath (src/unnamed/part_002; the editor package exposes the same
ExpandPath): a leading home-directory shorthand is replaced by the home
directory, joined with a path separator. -/
def expandPath (homeDir : Str) (p : Str) : Str :=
  match p with
  | '~' :: '/' :: rest => homeDir ++ '/' :: rest
  | _ => p

/-- FindDuplicates from src/internal/storage/storage.go: the first config
whose Path equals the given path, if any. -/
def FindDuplicates (configs : List ConfigEntry) (path : Str) : Option ConfigEntry :=
  configs.find? (fun c => c.path == path)

/-- The "General" group label for empty projects. -/
def generalLabel : Str := ['G','e','n','e','r','a','l']

/-- Normalization of an empty Project to the "General" label, as done in
SortConfigs and updateTable. -/
def normProject (p : Str) : Str := if p == [] then generalLabel else p

/-- The comparator passed to sort.Slice in SortConfigs
(src/internal/storage/storage.go): projects (empty normalized to
"General") compared case-insensitively first, names second. -/
def configLess (a b : ConfigEntry) : Bool :=
  let projectI := normProject a.project
  let projectJ := normProject b.project
  if !(equalFold projectI projectJ) then
    lexLt (toLowerStr projectI) (toLowerStr projectJ)
  else
    lexLt (toLowerStr a.name) (toLowerStr b.name)

/-- The non-strict order induced by the SortConfigs comparator: a is not
strictly after b. -/
def configLe (a b : ConfigEntry) : Prop := configLess b a = false

instance decConfigLe : DecidableRel configLe := fun a b => by
  unfold configLe
  infer_instance

/-- SortConfigs from src/internal/storage/storage.go: a sorted permutation
under the project-then-name comparator. -/
def SortConfigs (configs : List ConfigEntry) : List ConfigEntry :=
  List.insertionSort configLe configs

/-- The comparator passed to sort.Slice in SortByRecentlyOpened
(most recently opened first). -/
def recentLess (a b : ConfigEntry) : Bool :=
  b.lastOpened < a.lastOpened

/-- The non-strict order induced by the SortByRecentlyOpened comparator. -/
def recentLe (a b : ConfigEntry) : Prop := recentLess b a = false

instance decRecentLe : DecidableRel recentLe := fun a b => by
  unfold recentLe
  infer_instance

/-- SortByRecentlyOpened from src/internal/storage/storage.go. -/
def SortByRecentlyOpened (configs : List ConfigEntry) : List ConfigEntry :=
  List.insertionSort recentLe configs

/-- Model of strings.Contains. -/
def containsSub (s sub : Str) : Bool :=
  (List.range (s.length + 1)).any (fun i => (s.drop i).take sub.length == sub)

/-- fuzzyMatch's scanning loop (src/unnamed/part_002 lines 1561-1571):
walk the text left to right, consuming pattern characters in order. -/
def fuzzyLoop : Str → Str → Bool
  | [], _ => true
  | _ :: _, [] => false
  | p :: ps, t :: ts => if t == p then fuzzyLoop ps ts else fuzzyLoop (p :: ps) ts

/-- fuzzyMatch from src/unnamed/part_002: empty pattern matches, nonempty
pattern never matches empty text, otherwise the greedy subsequence scan. -/
def fuzzyMatch (pattern text : Str) : Bool :=
  if pattern == [] then true
  else if text == [] then false
  else fuzzyLoop pattern text

/-- matchesSearch from src/unnamed/part_002: fuzzy mode checks Name,
Project, Path and Description; substring mode also checks Type.  The
query argument arrives already lower-cased (as in getFilteredConfigs). -/
def matchesSearch (fuzzyMode : Bool) (config : ConfigEntry) (query : Str) : Bool :=
  if fuzzyMode then
    fuzzyMatch query (toLowerStr config.name) ||
    fuzzyMatch query (toLowerStr config.project) ||
    fuzzyMatch query (toLowerStr config.path) ||
    fuzzyMatch query (toLowerStr config.description)
  else
    containsSub (toLowerStr config.name) query ||
    containsSub (toLowerStr config.project) query ||
    containsSub (toLowerStr config.type) query ||
    containsSub (toLowerStr config.path) query ||
    containsSub (toLowerStr config.description) query

/-- ViewMode from src/unnamed/part_002 (lines 930-937). -/
inductive ViewMode where
  | normal
  | edit
  | add
  | search
  | help
  | confirmDelete
deriving DecidableEq, Repr

/-- The sorting step of getSortedConfigs (src/unnamed/part_002 lines
1502-1507), without the cache. -/
def sortStep (sortByRecent : Bool) (configs : List ConfigEntry) : List ConfigEntry :=
  if sortByRecent then SortByRecentlyOpened configs else SortConfigs configs

/-- getFilteredConfigs (src/unnamed/part_002 lines 1514-1531), with a
valid cache: sort, then filter by the lower-cased query when non-empty. -/
def getFilteredConfigs (sortByRecent fuzzyMode : Bool) (searchQuery : Str)
    (configs : List ConfigEntry) : List ConfigEntry :=
  let sorted := sortStep sortByRecent configs
  if searchQuery == [] then sorted
  else sorted.filter (fun c => matchesSearch fuzzyMode c (toLowerStr searchQuery))

/-- getColumnIndex from src/unnamed/part_002: position of a column title
inside the full row data, -1 for unknown titles. -/
def getColumnIndex (title : Str) : Int :=
  if title == ['N','a','m','e'] then 0
  else if title == ['P','r','o','j','e','c','t'] then 1
  else if title == ['T','y','p','e'] then 2
  else if title == ['P','a','t','h'] then 3
  else if title == ['D','e','s','c','r','i','p','t','i','o','n'] then 4
  else -1

/-- The name cell of a record row in updateTable: a missing-file marker or
a last-opened check mark may be prepended. -/
def markedName (fileExists : Str → Bool) (c : ConfigEntry) : Str :=
  if !(fileExists c.path) then '❌' :: ' ' :: c.name
  else if !(c.lastOpened == 0) then '✓' :: ' ' :: c.name
  else c.name

/-- The full row data of updateTable: marked name, displayed project,
type, path, description. -/
def fullRowData (fileExists : Str → Bool) (c : ConfigEntry) (dp : Str) : List Str :=
  [markedName fileExists c, dp, c.type, c.path, c.description]

/-- The visible record row in updateTable: one cell per visible column
title, looked up in the full row data by column index. -/
def visibleRowFor (titles : List Str) (fileExists : Str → Bool)
    (c : ConfigEntry) (dp : Str) : List Str :=
  titles.map (fun t =>
    let columnIndex := getColumnIndex t
    if 0 ≤ columnIndex && columnIndex < 5 then
      (fullRowData fileExists c dp).getD columnIndex.toNat []
    else [])

/-- A project header row in updateTable: the folder glyph and label in the
first column, the remaining visible columns empty. -/
def headerRowFor (titles : List Str) (dp : Str) : List Str :=
  match titles with
  | [] => []
  | _ :: rest => ('📂' :: ' ' :: dp) :: rest.map (fun _ => [])

/-- The row-building loop of updateTable (src/unnamed/part_002 lines
1584-1626): walks the filtered configs carrying the last emitted project
label and the running config index, inserting a header row whenever the
displayed project changes (and only when not sorting by recent). -/
def updTblAux (sortByRecent : Bool) (titles : List Str) (fileExists : Str → Bool) :
    List ConfigEntry → Str → Nat → List (List Str) × List Int
  | [], _, _ => ([], [])
  | c :: rest, lastProject, configIndex =>
    let displayProject := normProject c.project
    let newHeader := !sortByRecent && !(displayProject == lastProject)
    let nextLast := if newHeader then displayProject else lastProject
    let r := updTblAux sortByRecent titles fileExists rest nextLast (configIndex + 1)
    let recordRow := visibleRowFor titles fileExists c displayProject
    if newHeader then
      (headerRowFor titles displayProject :: recordRow :: r.1,
       -1 :: (configIndex : Int) :: r.2)
    else
      (recordRow :: r.1, (configIndex : Int) :: r.2)

/-- updateTable (src/unnamed/part_002 lines 1574-1629): the display rows
and the parallel display-index map, built from the filtered configs. -/
def updateTable (titles : List Str) (fileExists : Str → Bool)
    (sortByRecent fuzzyMode : Bool) (searchQuery : Str)
    (configs : List ConfigEntry) : List (List Str) × List Int :=
  updTblAux sortByRecent titles fileExists
    (getFilteredConfigs sortByRecent fuzzyMode searchQuery configs) [] 0

/-- The configIndices field after updateTable. -/
def configIndices (titles : List Str) (fileExists : Str → Bool)
    (sortByRecent fuzzyMode : Bool) (searchQuery : Str)
    (configs : List ConfigEntry) : List Int :=
  (updateTable titles fileExists sortByRecent fuzzyMode searchQuery configs).2

/-- getConfigByDisplayIndex (src/unnamed/part_002 lines 1708-1730):
resolve a display row back to the first structurally equal record of the
canonical collection; none for out-of-range indices and header rows. -/
def getConfigByDisplayIndex (titles : List Str) (fileExists : Str → Bool)
    (sortByRecent fuzzyMode : Bool) (searchQuery : Str)
    (configs : List ConfigEntry) (displayIndex : Int) : Option ConfigEntry :=
  let idxs := configIndices titles fileExists sortByRecent fuzzyMode searchQuery configs
  if displayIndex < 0 ∨ (idxs.length : Int) ≤ displayIndex then none
  else
    match idxs.get? displayIndex.toNat with
    | none => none
    | some configIndex =>
      if configIndex == -1 then none
      else
        let filteredConfigs := getFilteredConfigs sortByRecent fuzzyMode searchQuery configs
        if (filteredConfigs.length : Int) ≤ configIndex then none
        else
          match filteredConfigs.get? configIndex.toNat with
          | none => none
          | some sortedConfig => configs.find? (fun c => c.Equals sortedConfig)

/-- The scanning loop of findConfigDisplayIndex, with the running display
position. -/
def findDisplayAux (filteredConfigs : List ConfigEntry) (target : ConfigEntry) :
    List Int → Nat → Int
  | [], _ => -1
  | configIndex :: rest, i =>
    if configIndex == -1 then findDisplayAux filteredConfigs target rest (i + 1)
    else if (configIndex : Int) < (filteredConfigs.length : Int) then
      match filteredConfigs.get? configIndex.toNat with
      | some c => if c.Equals target then (i : Int)
                  else findDisplayAux filteredConfigs target rest (i + 1)
      | none => findDisplayAux filteredConfigs target rest (i + 1)
    else findDisplayAux filteredConfigs target rest (i + 1)

/-- findConfigDisplayIndex (src/unnamed/part_002 lines 1732-1747): the
first display position whose record is structurally equal to the target,
-1 if the target is not displayed. -/
def findConfigDisplayIndex (titles : List Str) (fileExists : Str → Bool)
    (sortByRecent fuzzyMode : Bool) (searchQuery : Str)
    (configs : List ConfigEntry) (target : ConfigEntry) : Int :=
  findDisplayAux (getFilteredConfigs sortByRecent fuzzyMode searchQuery configs) target
    (configIndices titles fileExists sortByRecent fuzzyMode searchQuery configs) 0

/-- table.Column: a title and a fixed width (Go int, modelled as Int). -/
structure Column where
  title : Str
  width : Int
deriving DecidableEq, Repr

/-- The five declared columns of allColumns (src/unnamed/part_002 lines
1015-1021). -/
def defaultColumns : List Column :=
  [⟨['N','a','m','e'], 25⟩,
   ⟨['P','r','o','j','e','c','t'], 20⟩,
   ⟨['T','y','p','e'], 10⟩,
   ⟨['P','a','t','h'], 40⟩,
   ⟨['D','e','s','c','r','i','p','t','i','o','n'], 30⟩]

/-- The column-counting loop of adjustLayout (src/unnamed/part_002 lines
1656-1668): accumulate declared columns while the running total stays
within the available width, stopping at the first overflow.  (The Go
loop also breaks after the last index, which the range exit makes
redundant.) -/
def greedyCountAux (avail : Int) : List Column → Int → Nat
  | [], _ => 0
  | c :: rest, total =>
    if total + c.width ≤ avail then greedyCountAux avail rest (total + c.width) + 1
    else 0

/-- Overwrite the width of the first column (the zero-fit branch of
adjustLayout writes through to allColumns[0]). -/
def setFirstWidth : List Column → Int → List Column
  | [], _ => []
  | c :: rest, w => { c with width := w } :: rest

/-- Add extra width to the last visible column. -/
def addToLast : List Column → Int → List Column
  | [], _ => []
  | [c], extra => [{ c with width := c.width + extra }]
  | c :: rest, extra => c :: addToLast rest extra

/-- Sum of column widths. -/
def sumWidths (cols : List Column) : Int :=
  cols.foldl (fun acc c => acc + c.width) 0

/-- adjustLayout (src/unnamed/part_002 lines 1648-1706), restricted to
its column computation: returns the visible columns, the (possibly
clamped) scroll offset, and the (possibly mutated) allColumns list.
Scroll offsets are modelled as naturals; the Go field is an int kept
non-negative by updateNormal. -/
def adjustLayout (allColumns : List Column) (width : Int) (scrollOffset : Nat) :
    List Column × Nat × List Column :=
  let availableWidth := width - 6
  let visibleCols0 := greedyCountAux availableWidth allColumns 0
  let visibleCols := if visibleCols0 == 0 then 1 else visibleCols0
  let allColumns := if visibleCols0 == 0 then setFirstWidth allColumns availableWidth else allColumns
  let startCol0 := scrollOffset
  let endCol0 := startCol0 + visibleCols
  let startCol := if allColumns.length < endCol0 then allColumns.length - visibleCols else startCol0
  let endCol := if allColumns.length < endCol0 then allColumns.length else endCol0
  let visibleColumns := (allColumns.drop startCol).take (endCol - startCol)
  let usedWidth := sumWidths visibleColumns
  let visibleColumns :=
    if 0 < availableWidth - usedWidth then addToLast visibleColumns (availableWidth - usedWidth)
    else visibleColumns
  (visibleColumns, startCol, allColumns)

/-- Running totals of column widths: the cumulative sums after each
successive column. -/
def runningTotals (cols : List Column) (total : Int) : List Int :=
  (cols.scanl (fun acc c => acc + c.width) total).drop 1

/-- Column count described by the spec: the longest prefix of the
declared columns each of whose running totals stays within the
available width. -/
def specFitCount (avail : Int) (cols : List Column) : Nat :=
  ((runningTotals cols 0).takeWhile (fun t => t ≤ avail)).length

/-- Layout following the spec text of section 4.5 word by word, amended
only in the zero-fit display: greedy prefix count, zero-fit forcing the
first column's width to the available width, window of that many columns
at the scroll offset clamped so it ends at the last column, and leftover
width added to the last visible column. -/
def specLayout (allColumns : List Column) (width : Int) (scrollOffset : Nat) :
    List Column × Nat × List Column :=
  let availableWidth := width - 6
  let fit := specFitCount availableWidth allColumns
  let n := max fit 1
  let cols := if fit == 0 then setFirstWidth allColumns availableWidth else allColumns
  let start := min scrollOffset (cols.length - n)
  let window := (cols.drop start).take (min n (cols.length - start))
  let leftover := availableWidth - sumWidths window
  let window := if 0 < leftover then addToLast window leftover else window
  (window, start, cols)

/-- The cache-bearing fragment of the model state used by
getSortedConfigs / getFilteredConfigs (src/unnamed/part_002 lines
939-974): the canonical records, the projection inputs, and the
sorted-cache with its validity flag. -/
structure ProjState where
  configs : List ConfigEntry
  sortByRecent : Bool
  searchQuery : Str
  fuzzyMode : Bool
  sortedCache : Option (List ConfigEntry)
  cacheValid : Bool
deriving Repr

/-- getSortedConfigs (src/unnamed/part_002 lines 1497-1512): return the
cached sorted list when the cache is valid and populated, otherwise sort
and fill the cache.  The extra boolean records whether the sort was
(re)computed, making recomputation observable. -/
def getSortedConfigsS (m : ProjState) : List ConfigEntry × ProjState × Bool :=
  match m.sortedCache with
  | some cache =>
    if m.cacheValid then (cache, m, false)
    else
      let sorted := sortStep m.sortByRecent m.configs
      (sorted, { m with sortedCache := some sorted, cacheValid := true }, true)
  | none =>
    let sorted := sortStep m.sortByRecent m.configs
    (sorted, { m with sortedCache := some sorted, cacheValid := true }, true)

/-- getFilteredConfigs (src/unnamed/part_002 lines 1514-1531) over the
cache-bearing state: the two booleans record whether the sort was
recomputed and whether the filter loop ran. -/
def getFilteredConfigsS (m : ProjState) : List ConfigEntry × ProjState × Bool × Bool :=
  let r := getSortedConfigsS m
  let sorted := r.1
  let m' := r.2.1
  let didSort := r.2.2
  if m'.searchQuery == [] then (sorted, m', didSort, false)
  else
    (sorted.filter (fun c => matchesSearch m'.fuzzyMode c (toLowerStr m'.searchQuery)),
     m', didSort, true)

/-- The placeholder path of a freshly added record
(src/unnamed/part_002 lines 1380-1387). -/
def placeholderPath : Str :=
  ['~','/','p','a','t','h','/','t','o','/','f','i','l','e']

/-- The placeholder record appended by addNewConfig. -/
def newPlaceholderConfig : ConfigEntry :=
  { name := ['N','e','w',' ','F','i','l','e']
    path := placeholderPath
    type := ['t','x','t']
    project := []
    description := ['F','i','l','e',' ','d','e','s','c','r','i','p','t','i','o','n']
    lastOpened := 0
    tags := [] }

/-- addNewConfig (src/unnamed/part_002 lines 1380-1405): append the
placeholder record and enter Add mode on it.  Returns the new record
list, the mode, and editRow/editCol. -/
def addNewConfig (configs : List ConfigEntry) :
    List ConfigEntry × ViewMode × Nat × Nat :=
  let configs' := configs ++ [newPlaceholderConfig]
  (configs', ViewMode.add, configs'.length - 1, 0)

/-- saveEdit (src/unnamed/part_002 lines 1431-1478): commit the current
text-input value into the field selected by editCol, with the
empty-field validations and the duplicate-Path check; on error the
record list is returned unchanged (the Go code returns before any
mutation on those paths).  Persistence is modelled as succeeding. -/
def saveEdit (homeDir : Str) (mode : ViewMode) (configs : List ConfigEntry)
    (editRow : Nat) (editCol : Nat) (input : Str) :
    Except Str (List ConfigEntry) :=
  if configs.length ≤ editRow then
    Except.error ['i','n','v','a','l','i','d',' ','e','d','i','t',' ','r','o','w']
  else
    let value := trimSpace input
    let cur := configs.getD editRow newPlaceholderConfig
    match editCol with
    | 0 =>
      if value == [] then
        Except.error ['n','a','m','e',' ','c','a','n','n','o','t',' ','b','e',' ','e','m','p','t','y']
      else Except.ok (configs.set editRow { cur with name := value })
    | 1 => Except.ok (configs.set editRow { cur with project := value })
    | 2 => Except.ok (configs.set editRow { cur with type := value })
    | 3 =>
      if value == [] then
        Except.error ['p','a','t','h',' ','c','a','n','n','o','t',' ','b','e',' ','e','m','p','t','y']
      else
        let expandedPath := expandPath homeDir value
        let dupHit :=
          if mode == ViewMode.add || !(cur.path == expandedPath) then
            match FindDuplicates configs expandedPath with
            | some dup => !(dup.Equals cur)
            | none => false
          else false
        if dupHit then
          Except.error ['f','i','l','e',' ','a','l','r','e','a','d','y',' ','r','e','g','i','s','t','e','r','e','d']
        else
          let withPath := { cur with path := expandedPath }
          let withType :=
            if withPath.type == [] || withPath.type == ['t','x','t'] then
              { withPath with type := DetectFileType expandedPath }
            else withPath
          Except.ok (configs.set editRow withType)
    | 4 => Except.ok (configs.set editRow { cur with description := value })
    | _ => Except.ok configs

/-- updateDeleteConfirm (src/unnamed/part_002 lines 1118-1143): the key
handler of ConfirmDelete mode.  Returns the record list, the next mode,
the next deleteIndex, and whether the store was persisted.  Persistence
is modelled as succeeding. -/
def updateDeleteConfirm (configs : List ConfigEntry) (deleteIndex : Int)
    (key : Str) : List ConfigEntry × ViewMode × Int × Bool :=
  if key == ['y'] || key == ['Y'] then
    if 0 ≤ deleteIndex ∧ deleteIndex < (configs.length : Int) then
      (configs.eraseIdx deleteIndex.toNat, ViewMode.normal, -1, true)
    else (configs, ViewMode.normal, -1, false)
  else if key == ['n'] || key == ['N'] || key == ['e','s','c'] then
    (configs, ViewMode.normal, -1, false)
  else
    (configs, ViewMode.confirmDelete, deleteIndex, false)

/-- The list of record Paths, in store order. -/
def pathsOf (configs : List ConfigEntry) : List Str :=
  configs.map ConfigEntry.path

/-- The duplicate invariant: no two records of the store share a Path. -/
def NoDupPaths (configs : List ConfigEntry) : Prop :=
  (pathsOf configs).Nodup

instance decNoDupPaths (configs : List ConfigEntry) : Decidable (NoDupPaths configs) := by
  unfold NoDupPaths
  infer_instance

/-- The normalized project label of a record, as displayed. -/
def labelOf (c : ConfigEntry) : Str := normProject c.project

/-- Number of positions at which a label differs from its predecessor,
starting from a given previous label (the lastProject accumulator of
updateTable). -/
def labelChanges : Str → List Str → Nat
  | _, [] => 0
  | lp, d :: ds => (if d == lp then 0 else 1) + labelChanges d ds

/-- Number of maximal runs of equal consecutive labels, counted the way
updateTable does (the initial lastProject is empty, and normalized
labels are never empty). -/
def runsOf (labels : List Str) : Nat := labelChanges [] labels

/-- Number of distinct values in a label list. -/
def distinctCount (labels : List Str) : Nat := labels.dedup.length

/-- First cells of the header rows of a display list, in display order. -/
def headerLabels (rows : List (List Str)) (idxs : List Int) : List Str :=
  (rows.zip idxs).filterMap (fun p => if p.2 == -1 then p.1.head? else none)

/-- The lower-cased normalized-project sort key. -/
def projKey (c : ConfigEntry) : Str := toLowerStr (normProject c.project)

/-- The lower-cased name sort key. -/
def nameKey (c : ConfigEntry) : Str := toLowerStr c.name

/-- The column titles of the five declared columns, used as the visible
titles in the concrete examples. -/
def allTitles : List Str := defaultColumns.map Column.title

/-- A record with the given Name, Path and Project and empty remaining
fields, for concrete test inputs. -/
def mkRec (name path project : Str) : ConfigEntry :=
  { name := name, path := path, type := [], project := project,
    description := [], lastOpened := 0, tags := [] }

/-- Record with Name docker-compose.yml (Matcher example). -/
def dockerRec : ConfigEntry :=
  mkRec ['d','o','c','k','e','r','-','c','o','m','p','o','s','e','.','y','m','l'] [] []

/-- Record with Name readme.md (Matcher example). -/
def readmeRec : ConfigEntry :=
  mkRec ['r','e','a','d','m','e','.','m','d'] [] []

/-- Sort/group example records with Project values Zeta, empty, alpha. -/
def zetaRec : ConfigEntry := mkRec ['n','1'] ['p','1'] ['Z','e','t','a']

/-- Sort/group example record with empty Project. -/
def emptyProjRec : ConfigEntry := mkRec ['n','2'] ['p','2'] []

/-- Sort/group example record with Project alpha. -/
def alphaRec : ConfigEntry := mkRec ['n','3'] ['p','3'] ['a','l','p','h','a']

/-- Three records whose Project values are differently-cased spellings of
the same word, interleaving after the case-insensitive sort. -/
def caseMixRecs : List ConfigEntry :=
  [mkRec ['a'] ['p','1'] ['A','l','p','h','a'],
   mkRec ['b'] ['p','2'] ['a','l','p','h','a'],
   mkRec ['c'] ['p','3'] ['A','l','p','h','a']]

/-- A store already holding a record at the placeholder path (e.g. loaded
from disk after an interrupted add). -/
def storeWithPlaceholderPath : List ConfigEntry :=
  [mkRec ['o','l','d'] placeholderPath []]

/-- A projection state with a one-record store and a non-empty query. -/
def queryState : ProjState :=
  { configs := [mkRec ['a'] ['p'] []]
    sortByRecent := false
    searchQuery := ['a']
    fuzzyMode := false
    sortedCache := none
    cacheValid := false }

/-! ## Helper lemmas -/

theorem set_get_self {α : Type} (l : List α) (i : Nat) (h : i < l.length) :
    l.set i (l.get ⟨i, h⟩) = l := by
  induction l generalizing i with
  | nil => simp at h
  | cons a t ih =>
    cases i with
    | zero => simp
    | succ j => simp only [List.set_cons_succ, List.get_cons_succ]; rw [ih]

theorem nodup_set_of_not_mem {α : Type} [DecidableEq α] (l : List α) (a : α) (i : Nat)
    (h : l.Nodup) (ha : a ∉ l) : (l.set i a).Nodup := by
  induction l generalizing i with
  | nil => simp
  | cons b t ih =>
    cases i with
    | zero =>
      simp only [List.set_cons_zero]
      rw [List.nodup_cons] at h ⊢
      exact ⟨fun hmem => ha (List.mem_cons_of_mem _ hmem), h.2⟩
    | succ j =>
      simp only [List.set_cons_succ]
      rw [List.nodup_cons] at h ⊢
      refine ⟨fun hmem => ?_, ih j h.2 fun hm => ha (List.mem_cons_of_mem _ hm)⟩
      rcases List.mem_or_eq_of_mem_set hmem with hm | rfl
      · exact h.1 hm
      · exact ha (List.mem_cons_self _ _)

theorem Equals_iff (c o : ConfigEntry) :
    c.Equals o = true ↔ c.name = o.name ∧ c.path = o.path ∧ c.project = o.project := by
  simp [ConfigEntry.Equals, Bool.and_eq_true, and_assoc]

theorem Equals_trans {a b c : ConfigEntry} (h1 : a.Equals b = true) (h2 : b.Equals c = true) :
    a.Equals c = true := by
  rw [Equals_iff] at h1 h2 ⊢
  exact ⟨h1.1.trans h2.1, h1.2.1.trans h2.2.1, h1.2.2.trans h2.2.2⟩

theorem fuzzyLoop_iff (p t : Str) : fuzzyLoop p t = true ↔ List.Sublist p t := by
  induction t generalizing p with
  | nil =>
    cases p with
    | nil => simp [fuzzyLoop]
    | cons a ps =>
      simp only [fuzzyLoop, Bool.false_eq_true, false_iff]
      intro h
      exact absurd (List.eq_nil_of_sublist_nil h) (by simp)
  | cons b ts ih =>
    cases p with
    | nil => simp [fuzzyLoop]
    | cons a ps =>
      simp only [fuzzyLoop]
      by_cases hab : b = a
      · subst hab
        simp only [beq_self_eq_true, if_true]
        rw [ih]
        exact List.cons_sublist_cons.symm
      · have : (b == a) = false := by simp [hab]
        rw [this]
        simp only [Bool.false_eq_true, if_false]
        rw [ih]
        constructor
        · intro h; exact h.cons b
        · intro h
          cases h with
          | cons _ h => exact h
          | cons₂ => exact absurd rfl hab

theorem fuzzyMatch_iff (p t : Str) : fuzzyMatch p t = true ↔ List.Sublist p t := by
  cases p with
  | nil => simp [fuzzyMatch]
  | cons a ps =>
    cases t with
    | nil =>
      rw [show fuzzyMatch (a :: ps) [] = false from rfl]
      simp only [Bool.false_eq_true, false_iff]
      intro h
      exact absurd (List.eq_nil_of_sublist_nil h) (by simp)
    | cons b ts =>
      rw [show fuzzyMatch (a :: ps) (b :: ts) = fuzzyLoop (a :: ps) (b :: ts) from rfl]
      exact fuzzyLoop_iff _ _

/-! ## C3: fuzzy matcher -/

/-- Claim C3: fuzzy matching case-folds and succeeds on a field iff the
query is an ordered (not necessarily contiguous) subsequence of that
field's text, evaluated over exactly the fields Name, Project, Path and
Description (Type excluded); the empty query always matches; a
non-empty query never matches empty text; and a fuzzy query dc matches
the Name docker-compose.yml but not the Name readme.md. -/
theorem c3_fuzzy_match_subsequence :
    (∀ (config : ConfigEntry) (q : Str),
      matchesSearch true config (toLowerStr q) = true ↔
        (List.Sublist (toLowerStr q) (toLowerStr config.name) ∨
         List.Sublist (toLowerStr q) (toLowerStr config.project) ∨
         List.Sublist (toLowerStr q) (toLowerStr config.path) ∨
         List.Sublist (toLowerStr q) (toLowerStr config.description))) ∧
    (∀ config : ConfigEntry, matchesSearch true config [] = true) ∧
    (∀ (c : Char) (q : Str), fuzzyMatch (c :: q) [] = false) ∧
    matchesSearch true dockerRec (toLowerStr ['d','c']) = true ∧
    matchesSearch true readmeRec (toLowerStr ['d','c']) = false := by
  refine ⟨?_, ?_, ?_, by decide, by decide⟩
  · intro config q
    simp only [matchesSearch, if_true, Bool.or_eq_true, fuzzyMatch_iff, or_assoc]
  · intro config
    simp [matchesSearch, fuzzyMatch]
  · intro c q
    rfl

/-! ## Order lemmas for the sort comparator -/

theorem lexLt_irrefl (a : Str) : lexLt a a = false := by
  induction a with
  | nil => rfl
  | cons c t ih => simp [lexLt, ih]

theorem lexLt_asymm {a b : Str} (h : lexLt a b = true) : lexLt b a = false := by
  induction a generalizing b with
  | nil =>
    cases b with
    | nil => simp [lexLt] at h
    | cons y ys => rfl
  | cons x xs ih =>
    cases b with
    | nil => simp [lexLt] at h
    | cons y ys =>
      simp only [lexLt] at h ⊢
      rcases lt_trichotomy x y with hlt | heq | hgt
      · simp [hlt, not_lt_of_gt hlt, ne_of_gt hlt |>.symm]
      · subst heq
        simp only [lt_irrefl, if_false] at h ⊢
        exact ih h
      · simp [hgt, not_lt_of_gt hgt] at h

theorem lexLt_trans {a b c : Str} (h1 : lexLt a b = true) (h2 : lexLt b c = true) :
    lexLt a c = true := by
  induction a generalizing b c with
  | nil =>
    cases c with
    | nil =>
      cases b with
      | nil => exact h1
      | cons y ys => simp [lexLt] at h2
    | cons z zs => rfl
  | cons x xs ih =>
    cases b with
    | nil => simp [lexLt] at h1
    | cons y ys =>
      cases c with
      | nil => simp [lexLt] at h2
      | cons z zs =>
        simp only [lexLt] at h1 h2 ⊢
        rcases lt_trichotomy x y with hxy | hxy | hxy
        · rcases lt_trichotomy y z with hyz | hyz | hyz
          · simp [lt_trans hxy hyz]
          · subst hyz; simp [hxy]
          · simp [hyz, not_lt_of_gt hyz] at h2
        · subst hxy
          rcases lt_trichotomy x z with hyz | hyz | hyz
          · simp [hyz]
          · subst hyz
            simp only [lt_irrefl, if_false] at h1 h2 ⊢
            exact ih h1 h2
          · simp [hyz, not_lt_of_gt hyz] at h2
        · simp [hxy, not_lt_of_gt hxy] at h1

theorem lexLt_eq_of_not {a b : Str} (h1 : lexLt a b = false) (h2 : lexLt b a = false) :
    a = b := by
  induction a generalizing b with
  | nil =>
    cases b with
    | nil => rfl
    | cons y ys => simp [lexLt] at h1
  | cons x xs ih =>
    cases b with
    | nil => simp [lexLt] at h2
    | cons y ys =>
      simp only [lexLt] at h1 h2
      rcases lt_trichotomy x y with hxy | hxy | hxy
      · simp [hxy] at h1
      · subst hxy
        simp only [lt_irrefl, if_false] at h1 h2
        rw [ih h1 h2]
      · simp [hxy] at h2

theorem configLess_eq (a b : ConfigEntry) :
    configLess a b =
      if projKey a = projKey b then lexLt (nameKey a) (nameKey b)
      else lexLt (projKey a) (projKey b) := by
  unfold configLess equalFold projKey nameKey
  by_cases h : toLowerStr (normProject a.project) = toLowerStr (normProject b.project)
  · simp [h]
  · simp [h]

theorem pairNotLt_trans {pa na pb nb pc nc : Str}
    (h1 : (if pb = pa then lexLt nb na else lexLt pb pa) = false)
    (h2 : (if pc = pb then lexLt nc nb else lexLt pc pb) = false) :
    (if pc = pa then lexLt nc na else lexLt pc pa) = false := by
  by_cases hba : pb = pa
  · by_cases hcb : pc = pb
    · have hca : pc = pa := hcb.trans hba
      rw [if_pos hba] at h1
      rw [if_pos hcb] at h2
      rw [if_pos hca]
      by_cases hbc : lexLt nb nc = true
      · cases hna : lexLt nc na with
        | false => rfl
        | true => exact absurd (lexLt_trans hbc hna) (by simp [h1])
      · have : nc = nb := lexLt_eq_of_not (by simpa using h2) (by simpa using hbc)
        rw [this]
        exact h1
    · have hca : ¬ pc = pa := fun h => hcb (h.trans hba.symm)
      rw [if_neg hcb] at h2
      rw [if_neg hca, ← hba]
      exact h2
  · by_cases hcb : pc = pb
    · have hca : ¬ pc = pa := fun h => hba (hcb.symm.trans h)
      rw [if_neg hba] at h1
      rw [if_neg hca, hcb]
      exact h1
    · rw [if_neg hba] at h1
      rw [if_neg hcb] at h2
      by_cases hca : pc = pa
      · subst hca
        exact absurd (lexLt_eq_of_not h2 h1) hcb
      · rw [if_neg hca]
        by_cases hab : lexLt pa pb = true
        · cases hpc : lexLt pc pa with
          | false => rfl
          | true => exact absurd (lexLt_trans hpc hab) (by simp [h2])
        · exact absurd (lexLt_eq_of_not h1 (by simpa using hab)) hba

theorem pairNotLt_total (pa na pb nb : Str) :
    (if pb = pa then lexLt nb na else lexLt pb pa) = false ∨
    (if pa = pb then lexLt na nb else lexLt pa pb) = false := by
  by_cases hab : pa = pb
  · rw [if_pos (hab.symm), if_pos hab]
    cases h : lexLt nb na with
    | false => exact Or.inl rfl
    | true => exact Or.inr (lexLt_asymm h)
  · rw [if_neg (fun h => hab h.symm), if_neg hab]
    cases h : lexLt pb pa with
    | false => exact Or.inl rfl
    | true => exact Or.inr (lexLt_asymm h)

instance instTransConfigLe : IsTrans ConfigEntry configLe where
  trans a b c h1 h2 := by
    unfold configLe at h1 h2 ⊢
    rw [configLess_eq] at h1 h2 ⊢
    exact pairNotLt_trans h1 h2

instance instTotalConfigLe : IsTotal ConfigEntry configLe where
  total a b := by
    unfold configLe
    rw [configLess_eq, configLess_eq]
    exact pairNotLt_total (projKey a) (nameKey a) (projKey b) (nameKey b)

/-! ## C5: ByProjectThenName sort -/

/-- Claim C5: ByProjectThenName sorting orders records by Project as
primary key (empty Project normalized to General), case-insensitively
ascending, then by Name case-insensitively ascending (the output is a
sorted permutation of the input, which is all that Go's unstable
sort.Slice guarantees); and records with Project values Zeta, empty,
alpha project to the group-header order alpha, General, Zeta (header
cells carry the folder glyph prepended by updateTable). -/
theorem c5_sort_by_project_then_name :
    (∀ configs : List ConfigEntry,
      List.Perm (SortConfigs configs) configs ∧
      (SortConfigs configs).Pairwise (fun a b =>
        lexLt (projKey b) (projKey a) = false ∧
        (projKey a = projKey b → lexLt (nameKey b) (nameKey a) = false))) ∧
    headerLabels
      (updateTable allTitles (fun _ => true) false false [] [zetaRec, emptyProjRec, alphaRec]).1
      (updateTable allTitles (fun _ => true) false false [] [zetaRec, emptyProjRec, alphaRec]).2 =
      [['📂',' ','a','l','p','h','a'],
       ['📂',' ','G','e','n','e','r','a','l'],
       ['📂',' ','Z','e','t','a']] := by
  refine ⟨fun configs => ⟨List.perm_insertionSort configLe configs, ?_⟩, by decide⟩
  have hs := List.sorted_insertionSort configLe configs
  refine List.Pairwise.imp ?_ hs
  intro a b h
  unfold configLe at h
  rw [configLess_eq] at h
  by_cases hp : projKey b = projKey a
  · rw [if_pos hp] at h
    constructor
    · rw [hp]; exact lexLt_irrefl _
    · intro _; exact h
  · rw [if_neg hp] at h
    exact ⟨h, fun he => absurd he.symm hp⟩

/-- Witness for C5 at a concrete input. -/
theorem c5_sort_by_project_then_name_witness :
    List.Perm (SortConfigs [zetaRec, alphaRec]) [zetaRec, alphaRec] ∧
    (SortConfigs [zetaRec, alphaRec]).Pairwise (fun a b =>
      lexLt (projKey b) (projKey a) = false ∧
      (projKey a = projKey b → lexLt (nameKey b) (nameKey a) = false)) :=
  (c5_sort_by_project_then_name).1 [zetaRec, alphaRec]

/-! ## Structure of the display list -/

theorem updTblAux_rows_length (sbr : Bool) (t : List Str) (fe : Str → Bool) :
    ∀ (rest : List ConfigEntry) (lp : Str) (n : Nat),
      (updTblAux sbr t fe rest lp n).1.length =
        rest.length + (if sbr then 0 else labelChanges lp (rest.map labelOf)) := by
  intro rest
  induction rest with
  | nil => intro lp n; cases sbr <;> simp [updTblAux, labelChanges]
  | cons c rest ih =>
    intro lp n
    cases sbr with
    | true => simp [updTblAux, ih]
    | false =>
      by_cases h : normProject c.project == lp
      · have hdp : normProject c.project = lp := by simpa using h
        simp [updTblAux, labelChanges, labelOf, hdp, ih]
        omega
      · have h' : (normProject c.project == lp) = false := by simpa using h
        simp [updTblAux, labelChanges, labelOf, h', ih]
        omega

theorem updTblAux_idxs_length (sbr : Bool) (t : List Str) (fe : Str → Bool) :
    ∀ (rest : List ConfigEntry) (lp : Str) (n : Nat),
      (updTblAux sbr t fe rest lp n).2.length = (updTblAux sbr t fe rest lp n).1.length := by
  intro rest
  induction rest with
  | nil => intro lp n; simp [updTblAux]
  | cons c rest ih =>
    intro lp n
    by_cases h : (!sbr && !(normProject c.project == lp)) = true
    · simp [updTblAux, h, ih]
    · simp only [Bool.not_eq_true] at h
      simp [updTblAux, h, ih]

theorem updTblAux_idxs_filter (sbr : Bool) (t : List Str) (fe : Str → Bool) :
    ∀ (rest : List ConfigEntry) (lp : Str) (n : Nat),
      (updTblAux sbr t fe rest lp n).2.filter (fun i => i != -1) =
        (List.range' n rest.length).map (fun m : Nat => (m : Int)) := by
  intro rest
  induction rest with
  | nil => intro lp n; simp [updTblAux]
  | cons c rest ih =>
    intro lp n
    have hneg : ((-1 : Int) != -1) = false := rfl
    have hpos : (((n : Nat) : Int) != -1) = true := rfl
    by_cases h : (!sbr && !(normProject c.project == lp)) = true
    · simp only [updTblAux, h, if_true, List.filter_cons, hneg, hpos, if_false,
        if_true, ih, List.range']
      simp [List.range'_succ]
    · simp only [Bool.not_eq_true] at h
      simp only [updTblAux, h, Bool.false_eq_true, if_false, List.filter_cons, hpos,
        if_true, ih]
      simp [List.range'_succ]

theorem updTblAux_idxs_mem (sbr : Bool) (t : List Str) (fe : Str → Bool)
    (rest : List ConfigEntry) (lp : Str) (n : Nat) :
    ∀ x ∈ (updTblAux sbr t fe rest lp n).2,
      x = -1 ∨ (n ≤ x.toNat ∧ x.toNat < n + rest.length ∧ x = ((x.toNat : Nat) : Int)) := by
  intro x hx
  by_cases hne : x = -1
  · exact Or.inl hne
  · right
    have hxf : x ∈ (updTblAux sbr t fe rest lp n).2.filter (fun i => i != -1) := by
      rw [List.mem_filter]
      exact ⟨hx, by simpa using hne⟩
    rw [updTblAux_idxs_filter] at hxf
    rcases List.mem_map.mp hxf with ⟨m, hm, rfl⟩
    have := List.mem_range'_1.mp hm
    refine ⟨by simpa using this.1, by simpa using this.2, by simp⟩

/-! ## C6: header insertion and row counts -/

/-- Claim C6, amended: header rows are inserted only in ByProjectThenName
mode and never in ByRecentlyOpened mode, so the display-row count equals
the filtered-record count in ByRecentlyOpened mode; in ByProjectThenName
mode it equals the filtered-record count plus the number of maximal runs
of consecutive equal normalized Project labels (which is the number of
distinct projects only when equal-fold label spellings do not
interleave). -/
theorem c6_header_insertion :
    (∀ (titles : List Str) (fe : Str → Bool) (fz : Bool) (q : Str)
       (configs : List ConfigEntry),
      (updateTable titles fe true fz q configs).1.length =
        (getFilteredConfigs true fz q configs).length ∧
      (updateTable titles fe true fz q configs).2 =
        (List.range (getFilteredConfigs true fz q configs).length).map (fun m : Nat => (m : Int))) ∧
    (∀ (titles : List Str) (fe : Str → Bool) (fz : Bool) (q : Str)
       (configs : List ConfigEntry),
      (updateTable titles fe false fz q configs).1.length =
        (getFilteredConfigs false fz q configs).length +
          runsOf ((getFilteredConfigs false fz q configs).map labelOf)) := by
  constructor
  · intro titles fe fz q configs
    have hlen : (updateTable titles fe true fz q configs).1.length =
        (getFilteredConfigs true fz q configs).length := by
      rw [updateTable, updTblAux_rows_length]
      simp
    refine ⟨hlen, ?_⟩
    have hfil := updTblAux_idxs_filter true titles fe
      (getFilteredConfigs true fz q configs) [] 0
    have hsub : ((updateTable titles fe true fz q configs).2.filter
        (fun i => i != -1)).Sublist (updateTable titles fe true fz q configs).2 :=
      List.filter_sublist _
    have hflen : ((updateTable titles fe true fz q configs).2.filter
        (fun i => i != -1)).length = (updateTable titles fe true fz q configs).2.length := by
      rw [updateTable, hfil, updTblAux_idxs_length, updTblAux_rows_length]
      simp
    have heq := hsub.eq_of_length hflen
    rw [← heq, updateTable, hfil, List.range_eq_range']
  · intro titles fe fz q configs
    rw [updateTable, updTblAux_rows_length, runsOf]
    simp

/-- Witness for C6 at concrete inputs. -/
theorem c6_header_insertion_witness :
    ((updateTable allTitles (fun _ => true) true false [] [zetaRec]).1.length =
       (getFilteredConfigs true false [] [zetaRec]).length ∧
     (updateTable allTitles (fun _ => true) true false [] [zetaRec]).2 =
       (List.range (getFilteredConfigs true false [] [zetaRec]).length).map (fun m : Nat => (m : Int))) ∧
    (updateTable allTitles (fun _ => true) false false [] [zetaRec]).1.length =
      (getFilteredConfigs false false [] [zetaRec]).length +
        runsOf ((getFilteredConfigs false false [] [zetaRec]).map labelOf) :=
  ⟨(c6_header_insertion).1 allTitles (fun _ => true) false [] [zetaRec],
   (c6_header_insertion).2 allTitles (fun _ => true) false [] [zetaRec]⟩

/-- Claim C6 as stated is false on the code: three records whose Project
values are the spellings Alpha, alpha, Alpha sort into interleaved label
runs, producing 6 display rows, while filtered-count plus
distinct-project-count is 3 + 2 = 5. -/
theorem c6_counterexample :
    (updateTable allTitles (fun _ => true) false false [] caseMixRecs).1.length = 6 ∧
    (getFilteredConfigs false false [] caseMixRecs).length = 3 ∧
    distinctCount ((getFilteredConfigs false false [] caseMixRecs).map labelOf) = 2 ∧
    ¬((updateTable allTitles (fun _ => true) false false [] caseMixRecs).1.length =
      (getFilteredConfigs false false [] caseMixRecs).length +
        distinctCount ((getFilteredConfigs false false [] caseMixRecs).map labelOf)) := by
  decide

theorem updTblAux_header_rows (sbr : Bool) (t : List Str) (fe : Str → Bool) :
    ∀ (rest : List ConfigEntry) (lp : Str) (n : Nat) (d : Nat),
      (updTblAux sbr t fe rest lp n).2.get? d = some (-1) →
      ∃ lbl, (updTblAux sbr t fe rest lp n).1.get? d = some (headerRowFor t lbl) := by
  intro rest
  induction rest with
  | nil => intro lp n d h; simp [updTblAux] at h
  | cons c rest ih =>
    intro lp n d h
    by_cases hh : (!sbr && !(normProject c.project == lp)) = true
    · simp only [updTblAux, hh, if_true] at h ⊢
      match d with
      | 0 => exact ⟨normProject c.project, rfl⟩
      | 1 => simp at h
      | Nat.succ (Nat.succ d') =>
        simp only [List.get?_cons_succ] at h ⊢
        exact ih _ _ d' h
    · have hh' : (!sbr && !(normProject c.project == lp)) = false := by simpa using hh
      simp only [updTblAux, hh', Bool.false_eq_true, if_false] at h ⊢
      match d with
      | 0 => simp at h
      | Nat.succ d' =>
        simp only [List.get?_cons_succ] at h ⊢
        exact ih _ _ d' h

/-! ## C9: the display-index map is parallel to the rows -/

/-- Claim C9: after every rebuild of the display list, the index map has
the same length as the row list, every sentinel entry sits at a header
row, the non-sentinel entries read in display order are exactly
0, 1, ..., k-1 for k the number of filtered records, and every entry is
either the sentinel or a valid index into the filtered list. -/
theorem c9_index_map_parallel :
    ∀ (titles : List Str) (fe : Str → Bool) (sbr fz : Bool) (q : Str)
      (configs : List ConfigEntry),
      (updateTable titles fe sbr fz q configs).2.length =
        (updateTable titles fe sbr fz q configs).1.length ∧
      (updateTable titles fe sbr fz q configs).2.filter (fun i => i != -1) =
        (List.range (getFilteredConfigs sbr fz q configs).length).map (fun m : Nat => (m : Int)) ∧
      (∀ x ∈ (updateTable titles fe sbr fz q configs).2,
        x = -1 ∨ (0 ≤ x ∧ x < ((getFilteredConfigs sbr fz q configs).length : Int))) ∧
      (∀ d : Nat, (updateTable titles fe sbr fz q configs).2.get? d = some (-1) →
        ∃ lbl, (updateTable titles fe sbr fz q configs).1.get? d =
          some (headerRowFor titles lbl)) := by
  intro titles fe sbr fz q configs
  refine ⟨?_, ?_, ?_, ?_⟩
  · rw [updateTable]
    exact updTblAux_idxs_length sbr titles fe _ [] 0
  · rw [updateTable, updTblAux_idxs_filter, List.range_eq_range']
  · intro x hx
    rw [updateTable] at hx
    rcases updTblAux_idxs_mem sbr titles fe _ [] 0 x hx with h | ⟨h1, h2, h3⟩
    · exact Or.inl h
    · right
      have hx0 : 0 ≤ x := by rw [h3]; exact Int.natCast_nonneg _
      omega
  · intro d h
    rw [updateTable] at h ⊢
    exact updTblAux_header_rows sbr titles fe _ [] 0 d h

/-- Witness for C9 at a concrete input. -/
theorem c9_index_map_parallel_witness :
    (updateTable allTitles (fun _ => true) false false [] [zetaRec, alphaRec]).2.length =
      (updateTable allTitles (fun _ => true) false false [] [zetaRec, alphaRec]).1.length ∧
    (-1 : Int) ∈ (updateTable allTitles (fun _ => true) false false [] [zetaRec, alphaRec]).2 ∧
    ((-1 : Int) = -1 ∨ (0 ≤ (-1 : Int) ∧ (-1 : Int) <
      ((getFilteredConfigs false false [] [zetaRec, alphaRec]).length : Int))) := by
  have h := c9_index_map_parallel allTitles (fun _ => true) false false [] [zetaRec, alphaRec]
  exact ⟨h.1, by decide, h.2.2.1 (-1) (by decide)⟩

/-! ## C2: resolver round trip -/

theorem Equals_refl (c : ConfigEntry) : c.Equals c = true := by
  rw [Equals_iff]
  exact ⟨rfl, rfl, rfl⟩

theorem mem_of_mem_filtered {sbr fz : Bool} {q : Str} {configs : List ConfigEntry}
    {x : ConfigEntry} (h : x ∈ getFilteredConfigs sbr fz q configs) : x ∈ configs := by
  have hsorted : ∀ y : ConfigEntry, y ∈ sortStep sbr configs → y ∈ configs := by
    intro y hy
    unfold sortStep at hy
    cases sbr with
    | true =>
      exact (List.perm_insertionSort recentLe configs).mem_iff.mp (by simpa [SortByRecentlyOpened] using hy)
    | false =>
      exact (List.perm_insertionSort configLe configs).mem_iff.mp (by simpa [SortConfigs] using hy)
  unfold getFilteredConfigs at h
  by_cases hq : (q == ([] : Str)) = true
  · simp only [hq, if_true] at h
    exact hsorted x h
  · have hq' : (q == ([] : Str)) = false := by simpa using hq
    simp only [hq', Bool.false_eq_true, if_false] at h
    exact hsorted x (List.mem_filter.mp h).1

theorem findDisplayAux_spec (f : List ConfigEntry) (tgt : ConfigEntry) :
    ∀ (rest : List Int) (i0 : Nat),
      findDisplayAux f tgt rest i0 = -1 ∨
      ∃ (d : Nat) (ci : Int),
        rest[d]? = some ci ∧
        findDisplayAux f tgt rest i0 = ((i0 + d : Nat) : Int) ∧
        ¬(ci = -1) ∧ ci < (f.length : Int) ∧
        ∃ (h : ci.toNat < f.length), (f.get ⟨ci.toNat, h⟩).Equals tgt = true := by
  intro rest
  induction rest with
  | nil => intro i0; exact Or.inl rfl
  | cons x rest ih =>
    intro i0
    have hstep : ∀ (hres : findDisplayAux f tgt (x :: rest) i0 =
        findDisplayAux f tgt rest (i0 + 1)),
        findDisplayAux f tgt (x :: rest) i0 = -1 ∨
        ∃ (d : Nat) (ci : Int),
          (x :: rest)[d]? = some ci ∧
          findDisplayAux f tgt (x :: rest) i0 = ((i0 + d : Nat) : Int) ∧
          ¬(ci = -1) ∧ ci < (f.length : Int) ∧
          ∃ (h : ci.toNat < f.length), (f.get ⟨ci.toNat, h⟩).Equals tgt = true := by
      intro hres
      rcases ih (i0 + 1) with hl | ⟨d, ci, hget, hr, hne, hlt, hh, heq⟩
      · exact Or.inl (hres.trans hl)
      · refine Or.inr ⟨d + 1, ci, by simpa using hget, ?_, hne, hlt, hh, heq⟩
        rw [hres, hr]
        congr 1
        omega
    by_cases hx : (x == (-1 : Int)) = true
    · exact hstep (by simp [findDisplayAux, hx])
    · have hx' : (x == (-1 : Int)) = false := by simpa using hx
      by_cases hlt : x < (f.length : Int)
      · cases hq : f[x.toNat]? with
        | none => exact hstep (by simp [findDisplayAux, hx', hlt, hq])
        | some c =>
          by_cases heq : c.Equals tgt = true
          · refine Or.inr ⟨0, x, by simp, ?_, by simpa using hx, hlt, ?_⟩
            · simp [findDisplayAux, hx', hlt, hq, heq]
            · rcases List.getElem?_eq_some.mp hq with ⟨hh, hc⟩
              exact ⟨hh, by rw [List.get_eq_getElem, hc]; exact heq⟩
          · have heq' : c.Equals tgt = false := by simpa using heq
            exact hstep (by simp [findDisplayAux, hx', hlt, hq, heq'])
      · exact hstep (by simp [findDisplayAux, hx', hlt])

theorem findDisplayAux_found (f : List ConfigEntry) (tgt : ConfigEntry) :
    ∀ (rest : List Int) (i0 : Nat) (j : Nat), ((j : Nat) : Int) ∈ rest →
      ∀ (h : j < f.length), (f.get ⟨j, h⟩).Equals tgt = true →
      ¬(findDisplayAux f tgt rest i0 = -1) := by
  intro rest
  induction rest with
  | nil => intro i0 j hmem; exact absurd hmem (by simp)
  | cons x rest ih =>
    intro i0 j hmem h heqt
    rcases List.mem_cons.mp hmem with hxj | hmem'
    · have hx' : (x == (-1 : Int)) = false := by
        rw [← hxj]
        simp only [beq_eq_false_iff_ne, ne_eq]
        omega
      have hlt : x < (f.length : Int) := by
        rw [← hxj]
        exact_mod_cast h
      have htn : x.toNat = j := by rw [← hxj]; simp
      have hq : f[x.toNat]? = some (f.get ⟨j, h⟩) := by
        rw [htn, List.get_eq_getElem]
        exact List.getElem?_eq_getElem h
      simp only [findDisplayAux, List.get?_eq_getElem?, hx', Bool.false_eq_true, if_false,
        hlt, if_true, hq, heqt]
      simp
    · by_cases hx : (x == (-1 : Int)) = true
      · simp only [findDisplayAux, hx, if_true]
        exact ih (i0 + 1) j hmem' h heqt
      · have hx' : (x == (-1 : Int)) = false := by simpa using hx
        by_cases hlt : x < (f.length : Int)
        · cases hq : f[x.toNat]? with
          | none =>
            simp only [findDisplayAux, List.get?_eq_getElem?, hx', Bool.false_eq_true,
              if_false, hlt, if_true, hq]
            exact ih (i0 + 1) j hmem' h heqt
          | some c =>
            by_cases heq : c.Equals tgt = true
            · simp only [findDisplayAux, List.get?_eq_getElem?, hx', Bool.false_eq_true,
                if_false, hlt, if_true, hq, heq]
              simp
            · have heq' : c.Equals tgt = false := by simpa using heq
              simp only [findDisplayAux, List.get?_eq_getElem?, hx', Bool.false_eq_true,
                if_false, hlt, if_true, hq, heq', Bool.false_eq_true]
              exact ih (i0 + 1) j hmem' h heqt
        · simp only [findDisplayAux, hx', Bool.false_eq_true, if_false, hlt, if_false]
          exact ih (i0 + 1) j hmem' h heqt

theorem getConfig_eq_find (titles : List Str) (fe : Str → Bool) (sbr fz : Bool)
    (q : Str) (configs : List ConfigEntry) (d : Nat) (ci : Int)
    (hget : (configIndices titles fe sbr fz q configs)[d]? = some ci)
    (hne : ¬(ci = -1))
    (hlt : ci < ((getFilteredConfigs sbr fz q configs).length : Int))
    (hh : ci.toNat < (getFilteredConfigs sbr fz q configs).length) :
    getConfigByDisplayIndex titles fe sbr fz q configs (d : Int) =
      (configs.find? (fun c =>
        c.Equals ((getFilteredConfigs sbr fz q configs).get ⟨ci.toNat, hh⟩))) := by
  have hdlen : d < (configIndices titles fe sbr fz q configs).length :=
    (List.getElem?_eq_some.mp hget).1
  have hguard : ¬((d : Int) < 0 ∨
      ((configIndices titles fe sbr fz q configs).length : Int) ≤ (d : Int)) := by
    push_neg
    constructor
    · omega
    · exact_mod_cast hdlen
  have htn : ((d : Int)).toNat = d := by simp
  have hbe : (ci == (-1 : Int)) = false := by simpa [beq_eq_false_iff_ne] using hne
  have hlt' : ¬(((getFilteredConfigs sbr fz q configs).length : Int) ≤ ci) := by omega
  have hq2 : (getFilteredConfigs sbr fz q configs)[ci.toNat]? =
      some ((getFilteredConfigs sbr fz q configs).get ⟨ci.toNat, hh⟩) := by
    rw [List.get_eq_getElem]
    exact List.getElem?_eq_getElem hh
  simp only [getConfigByDisplayIndex, List.get?_eq_getElem?, hguard, if_false, htn, hget,
    hbe, Bool.false_eq_true, hlt', hq2]

/-- Claim C2: for every record present in the current projection after
filtering, resolving its display index back through recordAt yields a
record structurally equal to it (Name, Path, Project); and recordAt
returns none for out-of-range display indices and for header rows. -/
theorem c2_resolver_round_trip :
    (∀ (titles : List Str) (fe : Str → Bool) (sbr fz : Bool) (q : Str)
       (configs : List ConfigEntry) (target : ConfigEntry)
       (j : Nat) (hj : j < (getFilteredConfigs sbr fz q configs).length),
       ((getFilteredConfigs sbr fz q configs).get ⟨j, hj⟩).Equals target = true →
       ¬(findConfigDisplayIndex titles fe sbr fz q configs target = -1) ∧
       ∃ c, getConfigByDisplayIndex titles fe sbr fz q configs
              (findConfigDisplayIndex titles fe sbr fz q configs target) = some c ∧
            c.Equals target = true) ∧
    (∀ (titles : List Str) (fe : Str → Bool) (sbr fz : Bool) (q : Str)
       (configs : List ConfigEntry) (d : Int),
       (d < 0 ∨ ((configIndices titles fe sbr fz q configs).length : Int) ≤ d) →
       getConfigByDisplayIndex titles fe sbr fz q configs d = none) ∧
    (∀ (titles : List Str) (fe : Str → Bool) (sbr fz : Bool) (q : Str)
       (configs : List ConfigEntry) (d : Nat),
       (configIndices titles fe sbr fz q configs)[d]? = some (-1) →
       getConfigByDisplayIndex titles fe sbr fz q configs (d : Int) = none) := by
  refine ⟨?_, ?_, ?_⟩
  · intro titles fe sbr fz q configs target j hj heqt
    have hmemr : ((j : Nat) : Int) ∈ configIndices titles fe sbr fz q configs := by
      have hfil := updTblAux_idxs_filter sbr titles fe
        (getFilteredConfigs sbr fz q configs) [] 0
      have hjr : j ∈ List.range' 0 (getFilteredConfigs sbr fz q configs).length :=
        List.mem_range'_1.mpr ⟨Nat.zero_le j, by omega⟩
      have hmap : ((j : Nat) : Int) ∈
          (List.range' 0 (getFilteredConfigs sbr fz q configs).length).map
            (fun m : Nat => (m : Int)) :=
        List.mem_map.mpr ⟨j, hjr, rfl⟩
      rw [← hfil] at hmap
      exact (List.mem_filter.mp hmap).1
    have hfound : ¬(findConfigDisplayIndex titles fe sbr fz q configs target = -1) :=
      findDisplayAux_found (getFilteredConfigs sbr fz q configs) target
        (configIndices titles fe sbr fz q configs) 0 j hmemr hj heqt
    refine ⟨hfound, ?_⟩
    rcases findDisplayAux_spec (getFilteredConfigs sbr fz q configs) target
        (configIndices titles fe sbr fz q configs) 0 with hl | spec
    · exact absurd hl hfound
    · rcases spec with ⟨d, ci, hget, hres, hne, hlt, hh, heqE⟩
      have hres' : findConfigDisplayIndex titles fe sbr fz q configs target = (d : Int) := by
        rw [show findConfigDisplayIndex titles fe sbr fz q configs target =
          findDisplayAux (getFilteredConfigs sbr fz q configs) target
            (configIndices titles fe sbr fz q configs) 0 from rfl, hres]
        simp
      rw [hres']
      rw [getConfig_eq_find titles fe sbr fz q configs d ci hget hne hlt hh]
      set sc := (getFilteredConfigs sbr fz q configs).get ⟨ci.toNat, hh⟩ with hsc
      have hscmem : sc ∈ getFilteredConfigs sbr fz q configs := List.get_mem _ _ _
      have hsome : (configs.find? (fun c => c.Equals sc)).isSome :=
        List.find?_isSome.mpr ⟨sc, mem_of_mem_filtered hscmem, Equals_refl sc⟩
      rcases Option.isSome_iff_exists.mp hsome with ⟨c, hc⟩
      have hpred : c.Equals sc = true := by
        have hp := List.find?_some hc
        simpa using hp
      exact ⟨c, hc, Equals_trans hpred heqE⟩
  · intro titles fe sbr fz q configs d h
    simp only [getConfigByDisplayIndex, h, if_true]
  · intro titles fe sbr fz q configs d h
    have hdlen : d < (configIndices titles fe sbr fz q configs).length :=
      (List.getElem?_eq_some.mp h).1
    have hguard : ¬((d : Int) < 0 ∨
        ((configIndices titles fe sbr fz q configs).length : Int) ≤ (d : Int)) := by
      push_neg
      exact ⟨by omega, by exact_mod_cast hdlen⟩
    have htn : ((d : Int)).toNat = d := by simp
    simp only [getConfigByDisplayIndex, List.get?_eq_getElem?, hguard, if_false, htn, h]
    simp

/-- Witness for C2 at a concrete input: a one-record store with no query. -/
theorem c2_resolver_round_trip_witness :
    (¬(findConfigDisplayIndex allTitles (fun _ => true) false false [] [zetaRec] zetaRec = -1) ∧
     ∃ c, getConfigByDisplayIndex allTitles (fun _ => true) false false [] [zetaRec]
            (findConfigDisplayIndex allTitles (fun _ => true) false false [] [zetaRec] zetaRec) =
          some c ∧ c.Equals zetaRec = true) ∧
    getConfigByDisplayIndex allTitles (fun _ => true) false false [] [zetaRec] (-3) = none ∧
    getConfigByDisplayIndex allTitles (fun _ => true) false false [] [zetaRec] ((0 : Nat) : Int) =
      none :=
  ⟨(c2_resolver_round_trip).1 allTitles (fun _ => true) false false [] [zetaRec] zetaRec
      0 (by decide) (by decide),
   (c2_resolver_round_trip).2.1 allTitles (fun _ => true) false false [] [zetaRec] (-3)
      (by decide),
   (c2_resolver_round_trip).2.2 allTitles (fun _ => true) false false [] [zetaRec] 0
      (by decide)⟩

/-! ## C4: projection determinism and memoization -/

theorem getSortedConfigsS_second (m : ProjState) :
    getSortedConfigsS ((getSortedConfigsS m).2.1) =
      ((getSortedConfigsS m).1, (getSortedConfigsS m).2.1, false) := by
  cases hc : m.sortedCache with
  | none => simp [getSortedConfigsS, hc]
  | some cache =>
    by_cases hv : m.cacheValid = true
    · simp [getSortedConfigsS, hc, hv]
    · have hv' : m.cacheValid = false := by simpa using hv
      simp [getSortedConfigsS, hc, hv']

theorem getFilteredConfigsS_state (m : ProjState) :
    (getFilteredConfigsS m).2.1 = (getSortedConfigsS m).2.1 := by
  unfold getFilteredConfigsS
  by_cases h : ((getSortedConfigsS m).2.1.searchQuery == ([] : Str)) = true
  · simp [h]
  · have h' : ((getSortedConfigsS m).2.1.searchQuery == ([] : Str)) = false := by simpa using h
    simp [h']

theorem getFilteredConfigsS_second (m : ProjState) :
    getFilteredConfigsS ((getFilteredConfigsS m).2.1) =
      ((getFilteredConfigsS m).1, (getFilteredConfigsS m).2.1, false,
       (getFilteredConfigsS m).2.2.2) := by
  rw [getFilteredConfigsS_state]
  unfold getFilteredConfigsS
  rw [getSortedConfigsS_second m]
  simp only []
  split
  · rfl
  · rfl

/-- Claim C4, amended: the projection result is deterministic and the
second call with an unchanged state returns the identical result and
state without re-running the sort (whose result is cached); but the
filter step is not memoized: it is recomputed on every call whenever the
query is non-empty.  From a fresh (empty-cache) state, the stateful
projection agrees with the pure function of the four inputs. -/
theorem c4_projection_memoized :
    (∀ m : ProjState,
      (getFilteredConfigsS ((getFilteredConfigsS m).2.1)).1 = (getFilteredConfigsS m).1 ∧
      (getFilteredConfigsS ((getFilteredConfigsS m).2.1)).2.1 = (getFilteredConfigsS m).2.1 ∧
      (getFilteredConfigsS ((getFilteredConfigsS m).2.1)).2.2.1 = false) ∧
    (∀ m : ProjState, m.sortedCache = none →
      (getFilteredConfigsS m).1 =
        getFilteredConfigs m.sortByRecent m.fuzzyMode m.searchQuery m.configs) := by
  constructor
  · intro m
    rw [getFilteredConfigsS_second m]
    exact ⟨rfl, rfl, rfl⟩
  · intro m hc
    unfold getFilteredConfigsS getFilteredConfigs
    simp only [getSortedConfigsS, hc]
    by_cases h : (m.searchQuery == ([] : Str)) = true
    · simp [h]
    · have h' : (m.searchQuery == ([] : Str)) = false := by simpa using h
      simp [h']

/-- Witness for C4 at a concrete fresh state. -/
theorem c4_projection_memoized_witness :
    (getFilteredConfigsS queryState).1 =
      getFilteredConfigs queryState.sortByRecent queryState.fuzzyMode
        queryState.searchQuery queryState.configs :=
  (c4_projection_memoized).2 queryState rfl

/-- Claim C4 as stated is false on the code: with a non-empty query the
second call with unchanged inputs re-runs the filter loop (only the sort
step is cached), so the second call does perform recomputation. -/
theorem c4_counterexample :
    ¬((getFilteredConfigsS ((getFilteredConfigsS queryState).2.1)).2.2.2 = false) := by
  decide

/-! ## C8: ConfirmDelete key handling -/

/-- Claim C8, amended: in ConfirmDelete mode, y (or Y) with a valid
selection commits the removal (shrinking the store by one) and persists
it; n, N and escape abort and return to Normal mode with the store
unchanged; every other key is ignored: the store is unchanged but the
machine stays in ConfirmDelete mode rather than returning to Normal. -/
theorem c8_confirm_delete_keys :
    ∀ (configs : List ConfigEntry) (deleteIndex : Int) (key : Str),
      ((key = ['y'] ∨ key = ['Y']) → 0 ≤ deleteIndex →
        deleteIndex < (configs.length : Int) →
        updateDeleteConfirm configs deleteIndex key =
          (configs.eraseIdx deleteIndex.toNat, ViewMode.normal, -1, true) ∧
        (configs.eraseIdx deleteIndex.toNat).length + 1 = configs.length) ∧
      ((key = ['n'] ∨ key = ['N'] ∨ key = ['e','s','c']) →
        updateDeleteConfirm configs deleteIndex key =
          (configs, ViewMode.normal, -1, false)) ∧
      (¬(key = ['y'] ∨ key = ['Y'] ∨ key = ['n'] ∨ key = ['N'] ∨ key = ['e','s','c']) →
        updateDeleteConfirm configs deleteIndex key =
          (configs, ViewMode.confirmDelete, deleteIndex, false)) := by
  intro configs deleteIndex key
  refine ⟨?_, ?_, ?_⟩
  · intro hk h0 hlen
    have hcond : (key == (['y'] : Str)) = true ∨ (key == (['Y'] : Str)) = true := by
      rcases hk with rfl | rfl
      · exact Or.inl rfl
      · exact Or.inr rfl
    have hres : updateDeleteConfirm configs deleteIndex key =
        (configs.eraseIdx deleteIndex.toNat, ViewMode.normal, -1, true) := by
      unfold updateDeleteConfirm
      rcases hcond with hy | hy
      · simp [hy, h0, hlen]
      · simp [hy, h0, hlen]
    refine ⟨hres, ?_⟩
    have hnat : deleteIndex.toNat < configs.length := by omega
    rw [List.length_eraseIdx, if_pos hnat]
    omega
  · intro hk
    unfold updateDeleteConfirm
    rcases hk with rfl | rfl | rfl
    · simp
    · simp
    · simp
  · intro hk
    push_neg at hk
    obtain ⟨h1, h2, h3, h4, h5⟩ := hk
    have b1 : (key == (['y'] : Str)) = false := by simpa [beq_eq_false_iff_ne] using h1
    have b2 : (key == (['Y'] : Str)) = false := by simpa [beq_eq_false_iff_ne] using h2
    have b3 : (key == (['n'] : Str)) = false := by simpa [beq_eq_false_iff_ne] using h3
    have b4 : (key == (['N'] : Str)) = false := by simpa [beq_eq_false_iff_ne] using h4
    have b5 : (key == (['e','s','c'] : Str)) = false := by simpa [beq_eq_false_iff_ne] using h5
    unfold updateDeleteConfirm
    simp [b1, b2, b3, b4, b5]

/-- Witness for C8 at concrete inputs, one for each key class. -/
theorem c8_confirm_delete_keys_witness :
    (updateDeleteConfirm [alphaRec] 0 ['y'] =
       ([alphaRec].eraseIdx ((0 : Int)).toNat, ViewMode.normal, -1, true) ∧
     ([alphaRec].eraseIdx ((0 : Int)).toNat).length + 1 = [alphaRec].length) ∧
    updateDeleteConfirm [alphaRec] 0 ['e','s','c'] = ([alphaRec], ViewMode.normal, -1, false) ∧
    updateDeleteConfirm [alphaRec] 0 ['x'] = ([alphaRec], ViewMode.confirmDelete, 0, false) :=
  ⟨(c8_confirm_delete_keys [alphaRec] 0 ['y']).1 (Or.inl rfl) (by decide) (by decide),
   (c8_confirm_delete_keys [alphaRec] 0 ['e','s','c']).2.1 (Or.inr (Or.inr rfl)),
   (c8_confirm_delete_keys [alphaRec] 0 ['x']).2.2 (by decide)⟩

/-- Claim C8 as stated is false on the code: the key x in ConfirmDelete
mode does not abort back to Normal mode; the machine stays in
ConfirmDelete (only n, N and esc abort). -/
theorem c8_counterexample :
    ¬((updateDeleteConfirm [alphaRec] 0 ['x']).2.1 = ViewMode.normal) := by
  decide

/-! ## C1: duplicate-Path invariant -/

theorem pathsOf_set_same (configs : List ConfigEntry) (i : Nat) (e : ConfigEntry)
    (h : i < configs.length) (hp : e.path = (configs.get ⟨i, h⟩).path) :
    pathsOf (configs.set i e) = pathsOf configs := by
  unfold pathsOf
  rw [List.map_set, hp]
  have hl : i < (configs.map ConfigEntry.path).length := by simpa using h
  have hg : (configs.get ⟨i, h⟩).path = (configs.map ConfigEntry.path).get ⟨i, hl⟩ := by
    simp
  rw [hg, set_get_self]

theorem nodupPaths_set_of_not_mem (configs : List ConfigEntry) (i : Nat) (e : ConfigEntry)
    (hnd : NoDupPaths configs) (hnm : e.path ∉ pathsOf configs) :
    NoDupPaths (configs.set i e) := by
  unfold NoDupPaths pathsOf at *
  rw [List.map_set]
  exact nodup_set_of_not_mem _ _ _ hnd hnm

theorem nodupPaths_get_inj (configs : List ConfigEntry) (hnd : NoDupPaths configs)
    (i j : Nat) (hi : i < configs.length) (hj : j < configs.length)
    (hp : (configs.get ⟨i, hi⟩).path = (configs.get ⟨j, hj⟩).path) : i = j := by
  unfold NoDupPaths pathsOf at hnd
  have hi' : i < (configs.map ConfigEntry.path).length := by simpa using hi
  have hj' : j < (configs.map ConfigEntry.path).length := by simpa using hj
  have hg : (configs.map ConfigEntry.path).get ⟨i, hi'⟩ =
      (configs.map ConfigEntry.path).get ⟨j, hj'⟩ := by
    simp only [List.get_eq_getElem, List.getElem_map]
    simpa using hp
  have hfin := (List.Nodup.get_inj_iff hnd).mp hg
  exact congrArg Fin.val hfin

theorem findDuplicates_none_iff (configs : List ConfigEntry) (p : Str) :
    FindDuplicates configs p = none ↔ ∀ c ∈ configs, c.path ≠ p := by
  unfold FindDuplicates
  rw [List.find?_eq_none]
  constructor
  · intro h c hc
    have := h c hc
    simpa using this
  · intro h c hc
    simpa using h c hc

theorem findDuplicates_some (configs : List ConfigEntry) (p : Str) (dup : ConfigEntry)
    (h : FindDuplicates configs p = some dup) : dup.path = p ∧ dup ∈ configs := by
  unfold FindDuplicates at h
  constructor
  · have := List.find?_some h
    simpa using this
  · exact List.mem_of_find?_eq_some h

/-- Claim C1, amended: starting from a store with no two records sharing
a Path, every successful saveEdit field commit preserves that
distinctness, and a Path-field commit that would introduce a duplicate
(another record already holds the expanded path) fails with a duplicate
error, the store being returned unchanged (the Go code returns before
any mutation on the error paths).  The add operation, however, appends
its placeholder record without any duplicate check and can itself
introduce a duplicate Path. -/
theorem c1_duplicate_invariant :
    (∀ (homeDir : Str) (mode : ViewMode) (configs : List ConfigEntry)
       (editRow editCol : Nat) (input : Str) (configs' : List ConfigEntry),
       NoDupPaths configs →
       saveEdit homeDir mode configs editRow editCol input = Except.ok configs' →
       NoDupPaths configs') ∧
    (∀ (homeDir : Str) (mode : ViewMode) (configs : List ConfigEntry)
       (editRow : Nat) (input : Str) (j : Nat)
       (hj : j < configs.length),
       editRow < configs.length →
       ¬(j = editRow) →
       NoDupPaths configs →
       (configs.get ⟨j, hj⟩).path = expandPath homeDir (trimSpace input) →
       ¬(trimSpace input = []) →
       ∃ e, saveEdit homeDir mode configs editRow 3 input = Except.error e) := by
  constructor
  · intro homeDir mode configs editRow editCol input configs' hnd hok
    by_cases hlen : configs.length ≤ editRow
    · unfold saveEdit at hok
      rw [if_pos hlen] at hok
      exact absurd hok (by simp)
    · push_neg at hlen
      have hcur : configs.getD editRow newPlaceholderConfig =
          configs.get ⟨editRow, hlen⟩ := List.getD_eq_getElem configs _ hlen
      unfold saveEdit at hok
      rw [if_neg (by omega)] at hok
      rcases editCol with _ | _ | _ | _ | _ | n
      · by_cases hv : (trimSpace input == ([] : Str)) = true
        · simp only [hv, if_true] at hok
          exact absurd hok (by simp)
        · have hv' : (trimSpace input == ([] : Str)) = false := by simpa using hv
          simp only [hv', Bool.false_eq_true, if_false, Except.ok.injEq] at hok
          subst hok
          unfold NoDupPaths
          rw [pathsOf_set_same configs editRow _ hlen (by rw [hcur])]
          exact hnd
      · simp only [Except.ok.injEq] at hok
        subst hok
        unfold NoDupPaths
        rw [pathsOf_set_same configs editRow _ hlen (by rw [hcur])]
        exact hnd
      · simp only [Except.ok.injEq] at hok
        subst hok
        unfold NoDupPaths
        rw [pathsOf_set_same configs editRow _ hlen (by rw [hcur])]
        exact hnd
      · by_cases hv : (trimSpace input == ([] : Str)) = true
        · simp only [hv, if_true] at hok
          exact absurd hok (by simp)
        · have hv' : (trimSpace input == ([] : Str)) = false := by simpa using hv
          simp only [hv', Bool.false_eq_true, if_false] at hok
          by_cases hbr : (mode == ViewMode.add ||
              !((configs.getD editRow newPlaceholderConfig).path ==
                expandPath homeDir (trimSpace input))) = true
          · rw [hbr] at hok
            simp only [if_true] at hok
            cases hfd : FindDuplicates configs (expandPath homeDir (trimSpace input)) with
            | none =>
              rw [hfd] at hok
              simp only [Bool.false_eq_true, if_false, Except.ok.injEq] at hok
              subst hok
              have hnm : ∀ c ∈ configs, c.path ≠ expandPath homeDir (trimSpace input) :=
                (findDuplicates_none_iff configs _).mp hfd
              refine nodupPaths_set_of_not_mem configs editRow _ hnd ?_
              intro hmem
              unfold pathsOf at hmem
              rcases List.mem_map.mp hmem with ⟨c, hc, hcp⟩
              have hcp' : c.path = expandPath homeDir (trimSpace input) := by
                rw [hcp]
                split <;> rfl
              exact hnm c hc hcp'
            | some dup =>
              rw [hfd] at hok
              by_cases hde : dup.Equals (configs.getD editRow newPlaceholderConfig) = true
              · simp only [hde, Bool.not_true, Bool.false_eq_true, if_false,
                  Except.ok.injEq] at hok
                subst hok
                have hdp := (findDuplicates_some configs _ dup hfd).1
                have hcp : (configs.getD editRow newPlaceholderConfig).path =
                    expandPath homeDir (trimSpace input) := by
                  rw [← hdp]
                  exact ((Equals_iff _ _).mp hde).2.1.symm
                unfold NoDupPaths
                rw [pathsOf_set_same configs editRow _ hlen ?_]
                · exact hnd
                · rw [← hcur, ← hcp]
                  split <;> rfl
              · have hde' : dup.Equals (configs.getD editRow newPlaceholderConfig) = false := by
                  simpa using hde
                simp only [hde', Bool.not_false, if_true] at hok
                exact absurd hok (by simp)
          · have hbr' : (mode == ViewMode.add ||
                !((configs.getD editRow newPlaceholderConfig).path ==
                  expandPath homeDir (trimSpace input))) = false := by simpa using hbr
            rw [hbr'] at hok
            simp only [Bool.false_eq_true, if_false, Except.ok.injEq] at hok
            subst hok
            have hcp : (configs.getD editRow newPlaceholderConfig).path =
                expandPath homeDir (trimSpace input) := by
              rcases Bool.or_eq_false_iff.mp hbr' with ⟨_, hnp⟩
              have hx : ((configs.getD editRow newPlaceholderConfig).path ==
                  expandPath homeDir (trimSpace input)) = true := by
                simpa using hnp
              simpa using hx
            unfold NoDupPaths
            rw [pathsOf_set_same configs editRow _ hlen ?_]
            · exact hnd
            · rw [← hcur, ← hcp]
              split <;> rfl
      · simp only [Except.ok.injEq] at hok
        subst hok
        unfold NoDupPaths
        rw [pathsOf_set_same configs editRow _ hlen (by rw [hcur])]
        exact hnd
      · simp only [Except.ok.injEq] at hok
        subst hok
        exact hnd
  · intro homeDir mode configs editRow input j hj hr hne hnd hjp hval
    have hcur : configs.getD editRow newPlaceholderConfig =
        configs.get ⟨editRow, hr⟩ := List.getD_eq_getElem configs _ hr
    have hcp : ¬((configs.getD editRow newPlaceholderConfig).path =
        expandPath homeDir (trimSpace input)) := by
      rw [hcur]
      intro hc
      exact hne (nodupPaths_get_inj configs hnd j editRow hj hr (hjp.trans hc.symm))
    have hbr : (mode == ViewMode.add ||
        !((configs.getD editRow newPlaceholderConfig).path ==
          expandPath homeDir (trimSpace input))) = true := by
      have hpb : ((configs.getD editRow newPlaceholderConfig).path ==
          expandPath homeDir (trimSpace input)) = false := by
        simpa [beq_eq_false_iff_ne] using hcp
      rw [hpb]
      simp
    have hsome : (FindDuplicates configs (expandPath homeDir (trimSpace input))).isSome := by
      unfold FindDuplicates
      refine List.find?_isSome.mpr ⟨configs.get ⟨j, hj⟩, List.get_mem _ _ _, ?_⟩
      simpa using hjp
    rcases Option.isSome_iff_exists.mp hsome with ⟨dup, hfd⟩
    have hdp := (findDuplicates_some configs _ dup hfd).1
    have hde : dup.Equals (configs.getD editRow newPlaceholderConfig) = false := by
      rw [Bool.eq_false_iff]
      intro hq
      have := ((Equals_iff _ _).mp hq).2.1
      exact hcp (by rw [← this, hdp])
    have hv' : (trimSpace input == ([] : Str)) = false := by
      simpa [beq_eq_false_iff_ne] using hval
    refine ⟨['f','i','l','e',' ','a','l','r','e','a','d','y',' ','r','e','g','i','s','t','e','r','e','d'], ?_⟩
    unfold saveEdit
    rw [if_neg (by omega)]
    simp only [hv', Bool.false_eq_true, if_false, hbr, if_true, hfd, hde, Bool.not_false,
      if_true]

/-- Witness for C1: a successful Name commit preserves path
distinctness, and a Path commit onto another record's path fails. -/
theorem c1_duplicate_invariant_witness :
    NoDupPaths ([zetaRec].set 0 { zetaRec with name := ['x'] }) ∧
    ∃ e, saveEdit [] ViewMode.edit [zetaRec, emptyProjRec] 0 3 ['p','2'] = Except.error e :=
  ⟨(c1_duplicate_invariant).1 [] ViewMode.edit [zetaRec] 0 0 ['x']
      ([zetaRec].set 0 { zetaRec with name := ['x'] }) (by decide) (by rfl),
   (c1_duplicate_invariant).2 [] ViewMode.edit [zetaRec, emptyProjRec] 0 ['p','2'] 1
      (by decide) (by decide) (by decide) (by decide) (by decide) (by decide)⟩

/-- Claim C1 as stated is false on the code: the add commit performs no
duplicate check, so from a store already holding a record at the
placeholder path (for instance loaded from disk after an interrupted
add) the add succeeds and leaves two records sharing an equal Path. -/
theorem c1_counterexample :
    (addNewConfig storeWithPlaceholderPath).1 =
      storeWithPlaceholderPath ++ [newPlaceholderConfig] ∧
    ¬ NoDupPaths (addNewConfig storeWithPlaceholderPath).1 := by
  constructor
  · rfl
  · decide

/-! ## C7 and C10: column layout -/

theorem scanl_width_cons (f : Int → Column → Int) (t : Int) (cols : List Column) :
    List.scanl f t cols = t :: (List.scanl f t cols).drop 1 := by
  cases cols with
  | nil => rfl
  | cons c rest => rfl

theorem runningTotals_cons (c : Column) (rest : List Column) (total : Int) :
    runningTotals (c :: rest) total =
      (total + c.width) :: runningTotals rest (total + c.width) := by
  unfold runningTotals
  exact scanl_width_cons _ _ rest

theorem greedyCountAux_eq (avail : Int) :
    ∀ (cols : List Column) (total : Int),
      greedyCountAux avail cols total =
        ((runningTotals cols total).takeWhile (fun t => t ≤ avail)).length := by
  intro cols
  induction cols with
  | nil => intro total; simp [greedyCountAux, runningTotals]
  | cons c rest ih =>
    intro total
    rw [runningTotals_cons]
    by_cases h : total + c.width ≤ avail
    · have hd : (decide (total + c.width ≤ avail)) = true := by simpa using h
      simp only [greedyCountAux, if_pos h, List.takeWhile_cons, hd, if_true,
        List.length_cons, ih]
    · have hd : (decide (total + c.width ≤ avail)) = false := by simpa using h
      simp only [greedyCountAux, if_neg h, List.takeWhile_cons, hd, Bool.false_eq_true,
        if_false, List.length_nil]

theorem clampStart_eq (L off n : Nat) :
    (if L < off + n then L - n else off) = min off (L - n) := by
  by_cases h : L < off + n
  · rw [if_pos h]; omega
  · rw [if_neg h]; omega

theorem clampTake_eq (L off n : Nat) :
    (if L < off + n then L else off + n) - (if L < off + n then L - n else off) =
      min n (L - min off (L - n)) := by
  by_cases h : L < off + n
  · rw [if_pos h, if_pos h]; omega
  · rw [if_neg h, if_neg h]; omega

theorem adjustLayout_eq_specLayout (cols : List Column) (width : Int) (off : Nat) :
    adjustLayout cols width off = specLayout cols width off := by
  have hfit : specFitCount (width - 6) cols = greedyCountAux (width - 6) cols 0 :=
    (greedyCountAux_eq (width - 6) cols 0).symm
  unfold adjustLayout specLayout
  simp only [hfit]
  by_cases h0 : greedyCountAux (width - 6) cols 0 = 0
  · rw [h0]
    norm_num
    rw [clampTake_eq, clampStart_eq]
    exact ⟨rfl, rfl⟩
  · have hb : ((greedyCountAux (width - 6) cols 0 == 0) : Bool) = false := by
      simpa using h0
    have hm : max (greedyCountAux (width - 6) cols 0) 1 =
        greedyCountAux (width - 6) cols 0 := by omega
    simp only [hb, Bool.false_eq_true, if_false, hm]
    rw [clampTake_eq, clampStart_eq]

/-- Claim C7, amended: for every terminal width and scroll offset the
layout equals the spec-side algorithm: the greedy prefix of columns
whose cumulative width stays within availableWidth, stopping at the
first overflow; in the zero-fit case the first column's declared width
is forced to availableWidth and a single-column window is shown at the
clamped scroll offset (it is the first column exactly when the scroll
offset is 0, not in general); the window is clamped to end at the last
column, any positive leftover width goes entirely to the last visible
column; and for widths [25,20,10,40,30] with availableWidth 80 the
visible columns are Name(25), Project(20), Type(10+25=35). -/
theorem c7_column_layout :
    (∀ (cols : List Column) (width : Int) (off : Nat),
      adjustLayout cols width off = specLayout cols width off) ∧
    adjustLayout defaultColumns 86 0 =
      ([⟨['N','a','m','e'], 25⟩, ⟨['P','r','o','j','e','c','t'], 20⟩,
        ⟨['T','y','p','e'], 35⟩], 0, defaultColumns) := by
  exact ⟨adjustLayout_eq_specLayout, by decide⟩

/-- Claim C7 as stated is false on the code: with declared widths
[25,20,10,40,30], availableWidth 6 (terminal width 12) and scroll offset
2, zero columns fit, yet the visible window is the Type column at its
declared width 10 and not the first column at width availableWidth. -/
theorem c7_counterexample :
    greedyCountAux 6 defaultColumns 0 = 0 ∧
    (adjustLayout defaultColumns 12 2).1 = [⟨['T','y','p','e'], 10⟩] ∧
    ¬((adjustLayout defaultColumns 12 2).1 = [⟨['N','a','m','e'], 6⟩]) := by
  decide

/-- Claim C10: the layout computation leaves the declared column-width
list unchanged whenever at least one column fits, but in the zero-fit
case it permanently overwrites the first column's declared width with
availableWidth, and every subsequent layout computation consumes the
mutated width: after a zero-fit pass at width 12, a pass at width 36
shows widths [6, 24], while the unmutated columns would have shown
[30]. -/
theorem c10_layout_width_mutation :
    (∀ (cols : List Column) (width : Int) (off : Nat),
      ¬(greedyCountAux (width - 6) cols 0 = 0) →
      (adjustLayout cols width off).2.2 = cols) ∧
    (∀ (cols : List Column) (width : Int) (off : Nat),
      greedyCountAux (width - 6) cols 0 = 0 →
      (adjustLayout cols width off).2.2 = setFirstWidth cols (width - 6)) ∧
    (adjustLayout defaultColumns 12 0).2.2 = setFirstWidth defaultColumns 6 ∧
    (adjustLayout (adjustLayout defaultColumns 12 0).2.2 36 0).1.map Column.width =
      [6, 24] ∧
    (adjustLayout defaultColumns 36 0).1.map Column.width = [30] := by
  refine ⟨?_, ?_, by decide, by decide, by decide⟩
  · intro cols width off h0
    have hb : ((greedyCountAux (width - 6) cols 0 == 0) : Bool) = false := by
      simpa using h0
    unfold adjustLayout
    simp only [hb, Bool.false_eq_true, if_false]
  · intro cols width off h0
    have hb : ((greedyCountAux (width - 6) cols 0 == 0) : Bool) = true := by
      simpa using h0
    unfold adjustLayout
    simp only [hb, if_true]

/-- Witness for C10 at concrete inputs: a fitting width leaves the
columns unchanged, a zero-fit width mutates the first column. -/
theorem c10_layout_width_mutation_witness :
    (adjustLayout defaultColumns 86 3).2.2 = defaultColumns ∧
    (adjustLayout defaultColumns 12 1).2.2 = setFirstWidth defaultColumns 6 :=
  ⟨(c10_layout_width_mutation).1 defaultColumns 86 3 (by decide),
   (c10_layout_width_mutation).2.1 defaultColumns 12 1 (by decide)⟩

end Zap
